import Mathlib

/-!
Verification development for the alert-rendering engine of this repository.

The repository's files contain the interface of the renderer
(`CapabilityAgents/Alerts/include/Alerts/Renderer/Renderer.h`: the public
operations `start`, `stop`, the `MediaPlayerObserverInterface` callbacks, the
executor-thread functions, and the session fields `m_localAudioFilePath`,
`m_urls`, `m_nextUrlIndexToRender`, `m_loopCount`, `m_loopPause`,
`m_isStopping`, `m_currentSourceId`), and the HTTP-content wrapper
`HTTPContent.h` with its inline `operator bool`.

The bodies of the renderer's executor functions are not among the files, so
the renderer's transition behaviour is modelled from the specification
(sections 3, 4.2, 7), as noted on each definition.  The embedding is
sequential: every caller command and playback callback is a task executed by
the single worker, so a run of the machine is a fold of one `step` function
over the list of tasks in their execution order.
-/

namespace AlertsRenderer

/-- An audio source handed to the media player: either the guaranteed local
fallback file (`m_localAudioFilePath`) or one of the remote urls of `m_urls`.
The two are distinct constructors because the player is driven through
different source kinds for local files and urls. -/
inductive Source where
  | localFile (path : String)
  | remoteUrl (u : String)
deriving DecidableEq, Repr

/-- Modelled from the spec: the states of the playback-selection state machine
of section 4.2 (`IDLE, PLAYING_SEQUENCE, PLAYING_FALLBACK,
PAUSED_BETWEEN_LOOPS, STOPPING, DONE`). -/
inductive RState where
  | idle
  | playingSequence
  | playingFallback
  | pausedBetweenLoops
  | stopping
  | done
deriving DecidableEq, Repr

/-- The renderer's executor-thread variables, named after the fields of
`Renderer.h` (`m_localAudioFilePath`, `m_urls`, `m_loopCount`, `m_loopPause`,
`m_nextUrlIndexToRender`, `m_isStopping`, `m_currentSourceId`).  Modelled from
the spec for what the header leaves open: `state` is the section 4.2 machine
state, `completedLoops` counts the completed repeat passes ("completed passes
so far"), `notifiedStarted` records that the observer was already told
"started" ("only on the very first start of a session"), `onFallback` records
that the outstanding play request is for the fallback source (section 7 keys
error handling on which source failed), and `nextId` generates the opaque
source identifiers the playback port returns. -/
structure Renderer where
  localAudioFilePath : String
  urls : List String
  loopCount : Nat
  loopPause : Nat
  nextUrlIndexToRender : Nat
  completedLoops : Nat
  isStopping : Bool
  currentSourceId : Option Nat
  state : RState
  notifiedStarted : Bool
  onFallback : Bool
  nextId : Nat
deriving DecidableEq, Repr

/-- A task executed by the serial queue's worker: a caller command (`start`,
`stop`), a playback-port lifecycle callback carrying its source identifier, or
the timer task that resumes playback after the pause between loops. -/
inductive Event where
  | start (localAudioFilePath : String) (urls : List String)
      (loopCount : Nat) (loopPause : Nat)
  | stop
  | onPlaybackStarted (sourceId : Nat)
  | onPlaybackStopped (sourceId : Nat)
  | onPlaybackFinished (sourceId : Nat)
  | onPlaybackError (sourceId : Nat)
  | loopPauseElapsed
deriving DecidableEq, Repr

/-- The observer states of `RendererObserverInterface` that the renderer
reports. -/
inductive ObserverState where
  | started
  | stopped
  | finished
  | error
deriving DecidableEq, Repr

/-- An externally visible action of one worker step: a play request to the
media player, a stop command to the media player, or an observer
notification. -/
inductive Output where
  | play (source : Source)
  | stopPlayback
  | notify (state : ObserverState)
deriving DecidableEq, Repr

/-- Modelled from the spec: `resetSourceId` of `Renderer.h` sets the internal
source id to the non-assigned state, so that every later callback carrying
the old identifier is stale. -/
def resetSourceId (s : Renderer) : Renderer :=
  { s with currentSourceId := none }

/-- Modelled from the spec: entering `DONE` "always resets `activeSessionId`
to none and clears `stopRequested`" (section 4.2). -/
def enterDone (s : Renderer) : Renderer :=
  resetSourceId { s with state := .done, isStopping := false }

/-- Modelled from the spec (section 4.2, `start`): reset the session progress,
store the new configuration; with a non-empty sequence request the first url
and enter `PLAYING_SEQUENCE`, with an empty sequence request the fallback file
and enter `PLAYING_FALLBACK`.  A prior session is implicitly superseded: its
identifier is replaced, so its late callbacks are stale. -/
def executeStart (s : Renderer) (localAudioFilePath : String)
    (urls : List String) (loopCount : Nat) (loopPause : Nat) :
    Renderer × List Output :=
  match urls with
  | [] =>
      ({ s with
          localAudioFilePath := localAudioFilePath
          urls := []
          loopCount := loopCount
          loopPause := loopPause
          nextUrlIndexToRender := 0
          completedLoops := 0
          isStopping := false
          notifiedStarted := false
          onFallback := true
          currentSourceId := some s.nextId
          nextId := s.nextId + 1
          state := .playingFallback },
       [.play (.localFile localAudioFilePath)])
  | u :: rest =>
      ({ s with
          localAudioFilePath := localAudioFilePath
          urls := u :: rest
          loopCount := loopCount
          loopPause := loopPause
          nextUrlIndexToRender := 0
          completedLoops := 0
          isStopping := false
          notifiedStarted := false
          onFallback := false
          currentSourceId := some s.nextId
          nextId := s.nextId + 1
          state := .playingSequence },
       [.play (.remoteUrl u)])

/-- Modelled from the spec (sections 4.1 and 4.2, `stop`): while something is
playing, set `m_isStopping`, enter `STOPPING` and issue one stop command for
the outstanding request; the observer is notified only by the later
acknowledgment callback.  If nothing is playing the call is a defined
no-op. -/
def executeStop (s : Renderer) : Renderer × List Output :=
  if s.state = .playingSequence ∨ s.state = .playingFallback then
    ({ s with isStopping := true, state := .stopping }, [.stopPlayback])
  else
    (s, [])

/-- Modelled from the spec (section 4.2, `onPlaybackStarted`): a stale
identifier is discarded; for the active identifier the observer is told
"started", but only on the very first start of the session. -/
def executeOnPlaybackStarted (s : Renderer) (sourceId : Nat) :
    Renderer × List Output :=
  if s.currentSourceId = some sourceId then
    if s.notifiedStarted then (s, [])
    else ({ s with notifiedStarted := true }, [.notify .started])
  else
    (s, [])

/-- Modelled from the spec (section 4.2, stop flow): a stale identifier is
discarded; the stopped acknowledgment for the active identifier while
`STOPPING` enters `DONE` and notifies the observer "stopped". -/
def executeOnPlaybackStopped (s : Renderer) (sourceId : Nat) :
    Renderer × List Output :=
  if s.currentSourceId = some sourceId then
    if s.state = .stopping then (enterDone s, [.notify .stopped])
    else (s, [])
  else
    (s, [])

/-- Modelled from the spec (section 4.2, `onPlaybackFinished`): a stale
identifier is discarded.  For the active identifier: while `STOPPING` the
finish acknowledges the stop (enter `DONE`, notify "stopped"); while
`PLAYING_FALLBACK` the session is complete (enter `DONE`, notify "finished",
the fallback never loops); while `PLAYING_SEQUENCE` increment
`m_nextUrlIndexToRender`, then either request the next url, or — when the
pass is complete — pause between loops when repeats remain, else enter `DONE`
and notify "finished". -/
def executeOnPlaybackFinished (s : Renderer) (sourceId : Nat) :
    Renderer × List Output :=
  if s.currentSourceId = some sourceId then
    match s.state with
    | .stopping => (enterDone s, [.notify .stopped])
    | .playingFallback => (enterDone s, [.notify .finished])
    | .playingSequence =>
        let ni := s.nextUrlIndexToRender + 1
        if h : ni < s.urls.length then
          ({ s with
              nextUrlIndexToRender := ni
              currentSourceId := some s.nextId
              nextId := s.nextId + 1 },
           [.play (.remoteUrl (s.urls.get ⟨ni, h⟩))])
        else if s.completedLoops < s.loopCount then
          ({ s with
              nextUrlIndexToRender := ni
              completedLoops := s.completedLoops + 1
              currentSourceId := none
              state := .pausedBetweenLoops },
           [])
        else
          (enterDone { s with nextUrlIndexToRender := ni },
           [.notify .finished])
    | _ => (s, [])
  else
    (s, [])

/-- Modelled from the spec (sections 4.2 and 7, `onPlaybackError`): a stale
identifier is discarded.  An error on the fallback source is terminal for the
session: enter `DONE` and notify the observer "error" — there is nowhere left
to fall back to.  An error on a sequence source abandons the remainder of the
sequence unconditionally (no retry, no advance) and requests playback of the
fallback file, entering `PLAYING_FALLBACK`. -/
def executeOnPlaybackError (s : Renderer) (sourceId : Nat) :
    Renderer × List Output :=
  if s.currentSourceId = some sourceId then
    if s.onFallback then (enterDone s, [.notify .error])
    else
      ({ s with
          state := .playingFallback
          onFallback := true
          currentSourceId := some s.nextId
          nextId := s.nextId + 1 },
       [.play (.localFile s.localAudioFilePath)])
  else
    (s, [])

/-- Modelled from the spec (sections 4.2 and 5): the delayed loop resumption
is a timer task re-enqueued onto the serial queue; when it runs and the
session is still paused between loops, `m_nextUrlIndexToRender` is reset to 0
and the first url of the sequence is requested again; if the session was
superseded or stopped meanwhile the task is ignored. -/
def executeLoopPauseElapsed (s : Renderer) : Renderer × List Output :=
  if s.state = .pausedBetweenLoops then
    match s.urls with
    | [] => (s, [])
    | u :: _ =>
        ({ s with
            nextUrlIndexToRender := 0
            state := .playingSequence
            currentSourceId := some s.nextId
            nextId := s.nextId + 1 },
         [.play (.remoteUrl u)])
  else
    (s, [])

/-- One worker step: the serial queue hands the next task to the matching
executor function. -/
def step (s : Renderer) : Event → Renderer × List Output
  | .start fb urls lc lp => executeStart s fb urls lc lp
  | .stop => executeStop s
  | .onPlaybackStarted i => executeOnPlaybackStarted s i
  | .onPlaybackStopped i => executeOnPlaybackStopped s i
  | .onPlaybackFinished i => executeOnPlaybackFinished s i
  | .onPlaybackError i => executeOnPlaybackError s i
  | .loopPauseElapsed => executeLoopPauseElapsed s

/-- Executing a list of tasks in queue order, collecting the outputs. -/
def run (s : Renderer) : List Event → Renderer × List Output
  | [] => (s, [])
  | e :: es =>
      let r1 := step s e
      let r2 := run r1.1 es
      (r2.1, r1.2 ++ r2.2)

/-- The renderer as constructed: idle, nothing outstanding. -/
def initialRenderer : Renderer where
  localAudioFilePath := ""
  urls := []
  loopCount := 0
  loopPause := 0
  nextUrlIndexToRender := 0
  completedLoops := 0
  isStopping := false
  currentSourceId := none
  state := .idle
  notifiedStarted := false
  onFallback := false
  nextId := 0

/-- Whether a task is a `start` command. -/
def Event.isStart : Event → Bool
  | .start _ _ _ _ => true
  | _ => false

/-- Whether a task is a `stop` command. -/
def Event.isStop : Event → Bool
  | .stop => true
  | _ => false

/-- Whether an output is a play request. -/
def Output.isPlay : Output → Bool
  | .play _ => true
  | _ => false

/-- Whether an output is a stop command to the media player. -/
def Output.isStopCmd : Output → Bool
  | .stopPlayback => true
  | _ => false

/-- Whether an output is the "stopped" observer notification. -/
def Output.isStoppedNotify : Output → Bool
  | .notify .stopped => true
  | _ => false

end AlertsRenderer

namespace AvsUtils

/-- `HTTPContent` of `HTTPContent.h`: the status code, the content-type and
the data stream of an HTTP response.  In the source the first two are
futures; the embedding holds the values they resolve to (`operator bool`
blocks on `statusCode.get()`, so it only ever sees the resolved value), and
the attachment pointer is an `Option` (`nullptr` when no data was fetched). -/
structure HTTPContent where
  statusCode : Int
  contentType : String
  dataStream : Option (List Int)
deriving DecidableEq, Repr

/-- `HTTPContent::operator bool` of `HTTPContent.h`:
`return statusCode.get() == 200;`. -/
def HTTPContent.toBool (c : HTTPContent) : Bool :=
  c.statusCode == 200

end AvsUtils

namespace AlertsRenderer

/-- The session phase after the fallback source has been requested: the
outstanding request (if any) is for the fallback, and the machine can no
longer be amid the url sequence. -/
def fallbackPhase (s : Renderer) : Prop :=
  s.onFallback = true ∧ s.state ≠ .pausedBetweenLoops ∧
    s.state ≠ .playingSequence

/-- The index invariant of the session progress: `m_nextUrlIndexToRender`
never exceeds the length of `m_urls`; it equals the length while paused
between loops (the pass is complete) and is strictly below it while a
sequence source is playing. -/
def indexInvariant (s : Renderer) : Prop :=
  s.nextUrlIndexToRender ≤ s.urls.length ∧
  (s.state = .pausedBetweenLoops → s.nextUrlIndexToRender = s.urls.length) ∧
  (s.state = .playingSequence → s.nextUrlIndexToRender < s.urls.length)

/-- The next task of an error-free session: the outstanding play request
finishes, and the pause between loops elapses.  `none` when the session is
over. -/
def happyEvent (s : Renderer) : Option Event :=
  match s.state, s.currentSourceId with
  | .playingSequence, some i => some (.onPlaybackFinished i)
  | .playingFallback, some i => some (.onPlaybackFinished i)
  | .pausedBetweenLoops, _ => some .loopPauseElapsed
  | _, _ => none

/-- Execute the error-free session to completion (bounded by `fuel` steps):
each step feeds the machine the task `happyEvent` chooses. -/
def drive (s : Renderer) : Nat → Renderer × List Output
  | 0 => (s, [])
  | n + 1 =>
      match happyEvent s with
      | none => (s, [])
      | some e =>
          let r1 := step s e
          let r2 := drive r1.1 n
          (r2.1, r1.2 ++ r2.2)

/-- The urls an error-free session still has to request after the one
currently outstanding. -/
def remainingSources (s : Renderer) : List String :=
  if s.state = .pausedBetweenLoops then
    (List.replicate (s.loopCount + 1 - s.completedLoops) s.urls).flatten
  else
    s.urls.drop (s.nextUrlIndexToRender + 1) ++
      (List.replicate (s.loopCount - s.completedLoops) s.urls).flatten

/-- A bound on the number of worker steps an error-free session still
needs. -/
def measureR (s : Renderer) : Nat :=
  (s.loopCount - s.completedLoops) * (s.urls.length + 2) +
    (s.urls.length - s.nextUrlIndexToRender) +
    (if s.state = .pausedBetweenLoops then s.urls.length + 2 else 0)

/-- The states `drive` is run from: mid-sequence with a request outstanding,
or paused between loops. -/
def happyHyp (s : Renderer) : Prop :=
  s.completedLoops ≤ s.loopCount ∧ s.urls ≠ [] ∧
  ((s.state = .playingSequence ∧
      s.nextUrlIndexToRender < s.urls.length ∧
      s.currentSourceId.isSome = true) ∨
    s.state = .pausedBetweenLoops)

/-- The session state right after `start fb urls n p` on a fresh renderer. -/
def startedState (fb : String) (urls : List String) (n p : Nat) : Renderer :=
  (step initialRenderer (.start fb urls n p)).1

/-- A concrete mid-sequence session (first of two urls outstanding). -/
def midSequenceState : Renderer :=
  { initialRenderer with
      localAudioFilePath := "fb"
      urls := ["u1", "u2"]
      state := .playingSequence
      currentSourceId := some 0
      nextId := 1 }

/-- A concrete session playing the fallback source. -/
def onFallbackState : Renderer :=
  { initialRenderer with
      localAudioFilePath := "fb"
      state := .playingFallback
      onFallback := true
      currentSourceId := some 0
      nextId := 1 }

theorem run_cons (s : Renderer) (e : Event) (es : List Event) :
    run s (e :: es) =
      ((run (step s e).1 es).1, (step s e).2 ++ (run (step s e).1 es).2) :=
  rfl

/-- Once the machine is `DONE` with no outstanding identifier, every task
other than a fresh `start` is a no-op with no output. -/
theorem done_step_no_op (s : Renderer) (e : Event)
    (hst : s.state = .done) (hid : s.currentSourceId = none)
    (he : e.isStart = false) : step s e = (s, []) := by
  cases e with
  | start fb urls lc lp => simp [Event.isStart] at he
  | stop =>
      simp [step, executeStop, hst]
  | onPlaybackStarted i =>
      simp [step, executeOnPlaybackStarted, hid]
  | onPlaybackStopped i =>
      simp [step, executeOnPlaybackStopped, hid]
  | onPlaybackFinished i =>
      simp [step, executeOnPlaybackFinished, hid]
  | onPlaybackError i =>
      simp [step, executeOnPlaybackError, hid]
  | loopPauseElapsed =>
      simp [step, executeLoopPauseElapsed, hst]

/-- Once the machine is `DONE` with no outstanding identifier, a whole list of
tasks without a `start` leaves it unchanged and produces no output. -/
theorem done_run_no_op (evs : List Event) (s : Renderer)
    (hst : s.state = .done) (hid : s.currentSourceId = none)
    (he : evs.all (fun e => !e.isStart) = true) : run s evs = (s, []) := by
  induction evs with
  | nil => rfl
  | cons e es ih =>
      simp only [List.all_cons, Bool.and_eq_true, Bool.not_eq_true'] at he
      rw [run_cons, done_step_no_op s e hst hid he.1]
      simp [ih he.2]

/-- One step preserves the fallback phase (absent a fresh `start`), and emits
no play request for any source but possibly notifications and stop
commands. -/
theorem fallbackPhase_step (s : Renderer) (e : Event)
    (hf : fallbackPhase s) (he : e.isStart = false) :
    fallbackPhase (step s e).1 ∧
      (step s e).2.all (fun o => !o.isPlay) = true := by
  obtain ⟨hfb, hp, hps⟩ := hf
  cases e with
  | start fb urls lc lp => simp [Event.isStart] at he
  | stop =>
      by_cases hcf : s.state = .playingFallback
      · simp [step, executeStop, hcf, fallbackPhase, hfb, Output.isPlay]
      · have hc : ¬(s.state = .playingSequence ∨ s.state = .playingFallback) := by
          rintro (h | h)
          · exact hps h
          · exact hcf h
        simp [step, executeStop, hc, hcf, fallbackPhase, hfb, hp, hps]
  | onPlaybackStarted i =>
      by_cases hid : s.currentSourceId = some i
      · by_cases hn : s.notifiedStarted <;>
          simp [step, executeOnPlaybackStarted, hid, hn, fallbackPhase, hfb,
            hp, hps, Output.isPlay]
      · simp [step, executeOnPlaybackStarted, hid, fallbackPhase, hfb, hp, hps]
  | onPlaybackStopped i =>
      by_cases hid : s.currentSourceId = some i
      · by_cases hst : s.state = .stopping <;>
          simp [step, executeOnPlaybackStopped, hid, hst, fallbackPhase,
            enterDone, resetSourceId, hfb, hp, hps, Output.isPlay]
      · simp [step, executeOnPlaybackStopped, hid, fallbackPhase, hfb, hp, hps]
  | onPlaybackFinished i =>
      by_cases hid : s.currentSourceId = some i
      · cases hstate : s.state with
        | playingSequence => exact absurd hstate hps
        | pausedBetweenLoops => exact absurd hstate hp
        | stopping =>
            simp [step, executeOnPlaybackFinished, hid, hstate, fallbackPhase,
              enterDone, resetSourceId, hfb, Output.isPlay]
        | playingFallback =>
            simp [step, executeOnPlaybackFinished, hid, hstate, fallbackPhase,
              enterDone, resetSourceId, hfb, Output.isPlay]
        | idle =>
            simp [step, executeOnPlaybackFinished, hid, hstate, fallbackPhase,
              hfb]
        | done =>
            simp [step, executeOnPlaybackFinished, hid, hstate, fallbackPhase,
              hfb]
      · simp [step, executeOnPlaybackFinished, hid, fallbackPhase, hfb, hp,
          hps]
  | onPlaybackError i =>
      by_cases hid : s.currentSourceId = some i
      · simp [step, executeOnPlaybackError, hid, hfb, fallbackPhase,
          enterDone, resetSourceId, Output.isPlay]
      · simp [step, executeOnPlaybackError, hid, fallbackPhase, hfb, hp, hps]
  | loopPauseElapsed =>
      simp [step, executeLoopPauseElapsed, hp, fallbackPhase, hfb, hp, hps]

/-- A whole task list without a `start` keeps the fallback phase and never
requests another source. -/
theorem fallbackPhase_run (evs : List Event) (s : Renderer)
    (hf : fallbackPhase s) (he : evs.all (fun e => !e.isStart) = true) :
    fallbackPhase (run s evs).1 ∧
      (run s evs).2.all (fun o => !o.isPlay) = true := by
  induction evs generalizing s with
  | nil => simpa [run] using hf
  | cons e es ih =>
      rw [List.all_cons, Bool.and_eq_true] at he
      obtain ⟨he1, he2⟩ := he
      rw [Bool.not_eq_true'] at he1
      have h1 := fallbackPhase_step s e hf he1
      have h2 := ih (step s e).1 h1.1 he2
      rw [run_cons]
      exact ⟨h2.1, by simp [List.all_append, h1.2, h2.2]⟩

/-- Claim C1: when a playback error is reported for the active identifier
while a sequence source is playing, the step requests exactly the fallback
source and enters `PLAYING_FALLBACK`; from then on, whatever tasks arrive
(absent a fresh `start`), no remote sequence source — including the failed
one — is ever requested again in the session. -/
theorem fallback_on_error (s : Renderer) (i : Nat)
    (hst : s.state = .playingSequence)
    (hid : s.currentSourceId = some i)
    (hfb : s.onFallback = false) :
    (step s (.onPlaybackError i)).2 = [.play (.localFile s.localAudioFilePath)] ∧
    (step s (.onPlaybackError i)).1.state = .playingFallback ∧
    ∀ evs : List Event, evs.all (fun e => !e.isStart) = true →
      ∀ u : String,
        Output.play (.remoteUrl u) ∉ (run (step s (.onPlaybackError i)).1 evs).2 := by
  refine ⟨?_, ?_, ?_⟩
  · simp [step, executeOnPlaybackError, hid, hfb]
  · simp [step, executeOnPlaybackError, hid, hfb]
  · intro evs hevs u hmem
    have hf : fallbackPhase (step s (.onPlaybackError i)).1 := by
      simp [step, executeOnPlaybackError, hid, hfb, fallbackPhase]
    have h := (fallbackPhase_run evs _ hf hevs).2
    have := List.all_eq_true.mp h _ hmem
    simp [Output.isPlay] at this

/-- Witness for claim C1 at a concrete mid-sequence session. -/
theorem fallback_on_error_witness :
    (step midSequenceState (.onPlaybackError 0)).2
        = [.play (.localFile midSequenceState.localAudioFilePath)] ∧
    (step midSequenceState (.onPlaybackError 0)).1.state = .playingFallback ∧
    ∀ evs : List Event, evs.all (fun e => !e.isStart) = true →
      ∀ u : String,
        Output.play (.remoteUrl u) ∉
          (run (step midSequenceState (.onPlaybackError 0)).1 evs).2 :=
  fallback_on_error midSequenceState 0 rfl rfl rfl

/-- Claim C2: a lifecycle callback whose identifier differs from the active
one is stale: processing it leaves the whole renderer state unchanged and
produces no output at all (no play or stop command, no observer
notification). -/
theorem stale_callback_no_op (s : Renderer) (i : Nat)
    (h : s.currentSourceId ≠ some i) :
    step s (.onPlaybackStarted i) = (s, []) ∧
    step s (.onPlaybackStopped i) = (s, []) ∧
    step s (.onPlaybackFinished i) = (s, []) ∧
    step s (.onPlaybackError i) = (s, []) := by
  refine ⟨?_, ?_, ?_, ?_⟩ <;>
    simp [step, executeOnPlaybackStarted, executeOnPlaybackStopped,
      executeOnPlaybackFinished, executeOnPlaybackError, h]

/-- Witness for claim C2: a callback for identifier 5 while identifier 0 is
active is discarded. -/
theorem stale_callback_no_op_witness :
    step midSequenceState (.onPlaybackStarted 5) = (midSequenceState, []) ∧
    step midSequenceState (.onPlaybackStopped 5) = (midSequenceState, []) ∧
    step midSequenceState (.onPlaybackFinished 5) = (midSequenceState, []) ∧
    step midSequenceState (.onPlaybackError 5) = (midSequenceState, []) :=
  stale_callback_no_op midSequenceState 5 (by decide)

/-- Claim C4: a `start` with an empty sequence issues exactly one play
request, for the fallback file, whatever the loop count and pause; the
machine enters `PLAYING_FALLBACK` and — absent a fresh `start` — never issues
another play request in the session, so the fallback is never looped. -/
theorem empty_sequence_start (s : Renderer) (fb : String) (lc lp : Nat) :
    (step s (.start fb [] lc lp)).2 = [.play (.localFile fb)] ∧
    (step s (.start fb [] lc lp)).1.state = .playingFallback ∧
    ∀ evs : List Event, evs.all (fun e => !e.isStart) = true →
      ∀ src : Source,
        Output.play src ∉ (run (step s (.start fb [] lc lp)).1 evs).2 := by
  refine ⟨rfl, rfl, ?_⟩
  intro evs hevs src hmem
  have hf : fallbackPhase (step s (.start fb [] lc lp)).1 :=
    ⟨rfl, by simp [step, executeStart], by simp [step, executeStart]⟩
  have h := (fallbackPhase_run evs _ hf hevs).2
  have := List.all_eq_true.mp h _ hmem
  simp [Output.isPlay] at this

/-- The "error" observer notification is emitted by exactly one transition:
a playback error reported for the active identifier while the fallback
source is the one outstanding. -/
theorem notify_error_only (t : Renderer) (e : Event)
    (hmem : Output.notify .error ∈ (step t e).2) :
    ∃ j, e = .onPlaybackError j ∧ t.currentSourceId = some j ∧
      t.onFallback = true := by
  cases e with
  | start fb urls lc lp =>
      cases urls <;> simp [step, executeStart] at hmem
  | stop =>
      by_cases hc : t.state = .playingSequence ∨ t.state = .playingFallback <;>
        simp [step, executeStop, hc] at hmem
  | onPlaybackStarted j =>
      by_cases hid : t.currentSourceId = some j
      · by_cases hn : t.notifiedStarted <;>
          simp [step, executeOnPlaybackStarted, hid, hn] at hmem
      · simp [step, executeOnPlaybackStarted, hid] at hmem
  | onPlaybackStopped j =>
      by_cases hid : t.currentSourceId = some j
      · by_cases hst : t.state = .stopping <;>
          simp [step, executeOnPlaybackStopped, hid, hst] at hmem
      · simp [step, executeOnPlaybackStopped, hid] at hmem
  | onPlaybackFinished j =>
      by_cases hid : t.currentSourceId = some j
      · cases hstate : t.state with
        | playingSequence =>
            simp only [step, executeOnPlaybackFinished, hid, hstate,
              if_true] at hmem
            split at hmem
            · simp at hmem
            · split at hmem <;> simp at hmem
        | idle => simp [step, executeOnPlaybackFinished, hid, hstate] at hmem
        | playingFallback =>
            simp [step, executeOnPlaybackFinished, hid, hstate] at hmem
        | pausedBetweenLoops =>
            simp [step, executeOnPlaybackFinished, hid, hstate] at hmem
        | stopping =>
            simp [step, executeOnPlaybackFinished, hid, hstate] at hmem
        | done => simp [step, executeOnPlaybackFinished, hid, hstate] at hmem
      · simp [step, executeOnPlaybackFinished, hid] at hmem
  | onPlaybackError j =>
      by_cases hid : t.currentSourceId = some j
      · by_cases hf : t.onFallback
        · exact ⟨j, rfl, hid, hf⟩
        · simp [step, executeOnPlaybackError, hid, hf] at hmem
      · simp [step, executeOnPlaybackError, hid] at hmem
  | loopPauseElapsed =>
      by_cases hc : t.state = .pausedBetweenLoops
      · cases hu : t.urls <;>
          simp [step, executeLoopPauseElapsed, hc, hu] at hmem
      · simp [step, executeLoopPauseElapsed, hc] at hmem

/-- Claim C8: a playback error for the active identifier while the fallback
source is playing terminates the session: the machine enters `DONE`, the
observer is notified "error", no further play request is issued (absent a
fresh `start`), and this is the only transition that ever surfaces the error
state to the observer. -/
theorem fallback_error_terminal (s : Renderer) (i : Nat)
    (hid : s.currentSourceId = some i) (hfb : s.onFallback = true) :
    (step s (.onPlaybackError i)).2 = [.notify .error] ∧
    (step s (.onPlaybackError i)).1.state = .done ∧
    (∀ evs : List Event, evs.all (fun e => !e.isStart) = true →
       (run (step s (.onPlaybackError i)).1 evs).2 = []) ∧
    ∀ (t : Renderer) (e : Event),
      Output.notify .error ∈ (step t e).2 →
      ∃ j, e = .onPlaybackError j ∧ t.currentSourceId = some j ∧
        t.onFallback = true := by
  have hstep1 : (step s (.onPlaybackError i)).1 = enterDone s := by
    simp [step, executeOnPlaybackError, hid, hfb]
  refine ⟨?_, ?_, ?_, notify_error_only⟩
  · simp [step, executeOnPlaybackError, hid, hfb]
  · rw [hstep1]; rfl
  · intro evs hevs
    rw [hstep1,
      done_run_no_op evs (enterDone s) rfl rfl hevs]

/-- Witness for claim C8 at a concrete session playing the fallback file. -/
theorem fallback_error_terminal_witness :
    (step onFallbackState (.onPlaybackError 0)).2 = [.notify .error] ∧
    (step onFallbackState (.onPlaybackError 0)).1.state = .done ∧
    (∀ evs : List Event, evs.all (fun e => !e.isStart) = true →
       (run (step onFallbackState (.onPlaybackError 0)).1 evs).2 = []) ∧
    ∀ (t : Renderer) (e : Event),
      Output.notify .error ∈ (step t e).2 →
      ∃ j, e = .onPlaybackError j ∧ t.currentSourceId = some j ∧
        t.onFallback = true :=
  fallback_error_terminal onFallbackState 0 rfl rfl

/-- A task that is not a `stop` command never issues a stop command to the
media player, and only a worker step whose machine was `STOPPING` can notify
the observer "stopped"; such a step leaves `STOPPING`. -/
theorem step_stop_accounting (s : Renderer) (e : Event)
    (he : e.isStop = false) :
    (step s e).2.countP (fun o => o.isStopCmd) = 0 ∧
    ((step s e).2.countP (fun o => o.isStoppedNotify) +
        (if (step s e).1.state = .stopping then 1 else 0)
      ≤ if s.state = .stopping then 1 else 0) := by
  cases e with
  | stop => simp [Event.isStop] at he
  | start fb urls lc lp =>
      cases urls <;>
        simp [step, executeStart, Output.isStopCmd, Output.isStoppedNotify,
          List.countP_cons]
  | onPlaybackStarted i =>
      by_cases hid : s.currentSourceId = some i
      · by_cases hn : s.notifiedStarted <;>
          simp [step, executeOnPlaybackStarted, hid, hn, Output.isStopCmd,
            Output.isStoppedNotify, List.countP_cons]
      · simp [step, executeOnPlaybackStarted, hid]
  | onPlaybackStopped i =>
      by_cases hid : s.currentSourceId = some i
      · by_cases hst : s.state = .stopping <;>
          simp [step, executeOnPlaybackStopped, hid, hst, Output.isStopCmd,
            Output.isStoppedNotify, List.countP_cons, enterDone, resetSourceId]
      · simp [step, executeOnPlaybackStopped, hid]
  | onPlaybackFinished i =>
      by_cases hid : s.currentSourceId = some i
      · cases hstate : s.state with
        | playingSequence =>
            refine ⟨?_, ?_⟩ <;>
              (simp only [step, executeOnPlaybackFinished, hid, hstate,
                 if_true]
               split
               · simp [Output.isStopCmd, Output.isStoppedNotify,
                   List.countP_cons]
               · split <;>
                   simp [Output.isStopCmd, Output.isStoppedNotify,
                     List.countP_cons, enterDone, resetSourceId])
        | idle =>
            simp [step, executeOnPlaybackFinished, hid, hstate]
        | playingFallback =>
            simp [step, executeOnPlaybackFinished, hid, hstate,
              Output.isStopCmd, Output.isStoppedNotify, List.countP_cons,
              enterDone, resetSourceId]
        | pausedBetweenLoops =>
            simp [step, executeOnPlaybackFinished, hid, hstate]
        | stopping =>
            simp [step, executeOnPlaybackFinished, hid, hstate,
              Output.isStopCmd, Output.isStoppedNotify, List.countP_cons,
              enterDone, resetSourceId]
        | done =>
            simp [step, executeOnPlaybackFinished, hid, hstate]
      · simp [step, executeOnPlaybackFinished, hid]
  | onPlaybackError i =>
      by_cases hid : s.currentSourceId = some i
      · by_cases hf : s.onFallback <;>
          simp [step, executeOnPlaybackError, hid, hf, Output.isStopCmd,
            Output.isStoppedNotify, List.countP_cons, enterDone, resetSourceId]
      · simp [step, executeOnPlaybackError, hid]
  | loopPauseElapsed =>
      by_cases hc : s.state = .pausedBetweenLoops
      · cases hu : s.urls <;>
          simp [step, executeLoopPauseElapsed, hc, hu, Output.isStopCmd,
            Output.isStoppedNotify, List.countP_cons]
      · simp [step, executeLoopPauseElapsed, hc]

/-- Over a task list without `stop` commands, no stop command is issued and
at most one "stopped" notification is delivered — none unless the machine
already was `STOPPING`. -/
theorem run_stop_accounting (evs : List Event) (s : Renderer)
    (he : evs.all (fun e => !e.isStop) = true) :
    (run s evs).2.countP (fun o => o.isStopCmd) = 0 ∧
    (run s evs).2.countP (fun o => o.isStoppedNotify)
      ≤ if s.state = .stopping then 1 else 0 := by
  induction evs generalizing s with
  | nil => simp [run]
  | cons e es ih =>
      rw [List.all_cons, Bool.and_eq_true] at he
      obtain ⟨he1, he2⟩ := he
      rw [Bool.not_eq_true'] at he1
      have h1 := step_stop_accounting s e he1
      have h2 := ih (step s e).1 he2
      rw [run_cons]
      constructor
      · simp [List.countP_append, h1.1, h2.1]
      · have h3 := Nat.add_le_add_left h2.2
          ((step s e).2.countP (fun o => o.isStoppedNotify))
        have h4 := le_trans h3 h1.2
        simpa [List.countP_append] using h4

/-- Claim C5: two consecutive `stop` calls — followed by any tasks that are
not further `stop` calls — produce at most one stop command to the media
player and at most one "stopped" observer notification; a `stop` while
nothing is playing leaves the renderer unchanged and produces no output. -/
theorem stop_idempotent (s : Renderer) (evs : List Event)
    (hevs : evs.all (fun e => !e.isStop) = true) :
    ((step s .stop).2 ++ (step (step s .stop).1 .stop).2 ++
        (run (step (step s .stop).1 .stop).1 evs).2).countP
        (fun o => o.isStopCmd) ≤ 1 ∧
    ((step s .stop).2 ++ (step (step s .stop).1 .stop).2 ++
        (run (step (step s .stop).1 .stop).1 evs).2).countP
        (fun o => o.isStoppedNotify) ≤ 1 ∧
    (s.state ≠ .playingSequence → s.state ≠ .playingFallback →
      step s .stop = (s, [])) := by
  have honeA : List.countP (fun o => o.isStopCmd) [Output.stopPlayback]
      = 1 := rfl
  have honeB : List.countP (fun o => o.isStoppedNotify) [Output.stopPlayback]
      = 0 := rfl
  by_cases hc : s.state = .playingSequence ∨ s.state = .playingFallback
  · have h1 : step s .stop
        = ({ s with isStopping := true, state := .stopping },
           [.stopPlayback]) := by
      simp [step, executeStop, hc]
    have h2 : step { s with isStopping := true, state := .stopping } .stop
        = ({ s with isStopping := true, state := .stopping }, []) := by
      simp [step, executeStop]
    have h3 := run_stop_accounting evs
      { s with isStopping := true, state := .stopping } hevs
    obtain ⟨h31, h32⟩ := h3
    rw [if_pos rfl] at h32
    refine ⟨?_, ?_, ?_⟩
    · simp only [h1, h2, List.countP_append, List.countP_nil, honeA, h31]
      omega
    · simp only [h1, h2, List.countP_append, List.countP_nil, honeB]
      omega
    · intro hps hpf
      rcases hc with h | h
      · exact absurd h hps
      · exact absurd h hpf
  · have h1 : step s .stop = (s, []) := by
      simp [step, executeStop, hc]
    have h3 := run_stop_accounting evs s hevs
    obtain ⟨h31, h32⟩ := h3
    have h33 : (run s evs).2.countP (fun o => o.isStoppedNotify) ≤ 1 :=
      le_trans h32 (by split <;> norm_num)
    refine ⟨?_, ?_, fun _ _ => h1⟩
    · simp only [h1, List.countP_append, List.countP_nil, h31]
      omega
    · simp only [h1, List.countP_append, List.countP_nil]
      omega

/-- Witness for claim C5: two `stop` calls on a concrete mid-sequence
session, followed by the stopped acknowledgment. -/
theorem stop_idempotent_witness :
    ((step midSequenceState .stop).2 ++
        (step (step midSequenceState .stop).1 .stop).2 ++
        (run (step (step midSequenceState .stop).1 .stop).1
          [.onPlaybackStopped 0]).2).countP
        (fun o => o.isStopCmd) ≤ 1 ∧
    ((step midSequenceState .stop).2 ++
        (step (step midSequenceState .stop).1 .stop).2 ++
        (run (step (step midSequenceState .stop).1 .stop).1
          [.onPlaybackStopped 0]).2).countP
        (fun o => o.isStoppedNotify) ≤ 1 ∧
    (midSequenceState.state ≠ .playingSequence →
      midSequenceState.state ≠ .playingFallback →
      step midSequenceState .stop = (midSequenceState, [])) :=
  stop_idempotent midSequenceState [.onPlaybackStopped 0] (by decide)

/-- Claim C6: every transition that enters `DONE` resets the active source
identifier to the "none" sentinel and clears the stopping flag; afterwards
every task except a fresh `start` — in particular every callback carrying the
old identifier — is a no-op, and a subsequent `start` begins from fully reset
session progress. -/
theorem done_resets (s : Renderer) (e : Event)
    (h1 : s.state ≠ .done) (h2 : (step s e).1.state = .done) :
    (step s e).1.currentSourceId = none ∧
    (step s e).1.isStopping = false ∧
    (∀ e2 : Event, e2.isStart = false →
      step (step s e).1 e2 = ((step s e).1, [])) ∧
    ∀ (fb : String) (urls : List String) (lc lp : Nat),
      (step (step s e).1 (.start fb urls lc lp)).1.nextUrlIndexToRender = 0 ∧
      (step (step s e).1 (.start fb urls lc lp)).1.completedLoops = 0 ∧
      (step (step s e).1 (.start fb urls lc lp)).1.isStopping = false ∧
      (step (step s e).1 (.start fb urls lc lp)).1.notifiedStarted = false := by
  have hgen : ∀ (t : Renderer) (fb : String) (urls : List String)
      (lc lp : Nat),
      (step t (.start fb urls lc lp)).1.nextUrlIndexToRender = 0 ∧
      (step t (.start fb urls lc lp)).1.completedLoops = 0 ∧
      (step t (.start fb urls lc lp)).1.isStopping = false ∧
      (step t (.start fb urls lc lp)).1.notifiedStarted = false := by
    intro t fb urls lc lp
    cases urls <;> simp [step, executeStart]
  have key : (step s e).1.currentSourceId = none ∧
      (step s e).1.isStopping = false := by
    cases e with
    | start fb urls lc lp =>
        cases urls <;> simp [step, executeStart] at h2
    | stop =>
        by_cases hcond : s.state = .playingSequence ∨
            s.state = .playingFallback
        · simp [step, executeStop, hcond] at h2
        · simp [step, executeStop, hcond] at h2
          exact absurd h2 h1
    | onPlaybackStarted i =>
        by_cases hid : s.currentSourceId = some i
        · by_cases hn : s.notifiedStarted
          · simp [step, executeOnPlaybackStarted, hid, hn] at h2
            exact absurd h2 h1
          · simp [step, executeOnPlaybackStarted, hid, hn] at h2
            exact absurd h2 h1
        · simp [step, executeOnPlaybackStarted, hid] at h2
          exact absurd h2 h1
    | onPlaybackStopped i =>
        by_cases hid : s.currentSourceId = some i
        · by_cases hst : s.state = .stopping
          · simp [step, executeOnPlaybackStopped, hid, hst, enterDone,
              resetSourceId]
          · simp [step, executeOnPlaybackStopped, hid, hst] at h2
            exact absurd h2 h1
        · simp [step, executeOnPlaybackStopped, hid] at h2
          exact absurd h2 h1
    | onPlaybackFinished i =>
        by_cases hid : s.currentSourceId = some i
        · cases hstate : s.state with
          | playingSequence =>
              by_cases hlt : s.nextUrlIndexToRender + 1 < s.urls.length
              · simp [step, executeOnPlaybackFinished, hid, hstate, hlt]
                  at h2
              · by_cases hlc : s.completedLoops < s.loopCount
                · simp [step, executeOnPlaybackFinished, hid, hstate, hlt,
                    hlc] at h2
                · simp [step, executeOnPlaybackFinished, hid, hstate, hlt,
                    hlc, enterDone, resetSourceId]
          | stopping =>
              simp [step, executeOnPlaybackFinished, hid, hstate, enterDone,
                resetSourceId]
          | playingFallback =>
              simp [step, executeOnPlaybackFinished, hid, hstate, enterDone,
                resetSourceId]
          | idle =>
              simp [step, executeOnPlaybackFinished, hid, hstate] at h2
          | pausedBetweenLoops =>
              simp [step, executeOnPlaybackFinished, hid, hstate] at h2
          | done => exact absurd hstate h1
        · simp [step, executeOnPlaybackFinished, hid] at h2
          exact absurd h2 h1
    | onPlaybackError i =>
        by_cases hid : s.currentSourceId = some i
        · by_cases hf : s.onFallback
          · simp [step, executeOnPlaybackError, hid, hf, enterDone,
              resetSourceId]
          · simp [step, executeOnPlaybackError, hid, hf] at h2
        · simp [step, executeOnPlaybackError, hid] at h2
          exact absurd h2 h1
    | loopPauseElapsed =>
        by_cases hc : s.state = .pausedBetweenLoops
        · cases hu : s.urls with
          | nil => simp [step, executeLoopPauseElapsed, hc, hu] at h2
          | cons u rest =>
              simp [step, executeLoopPauseElapsed, hc, hu] at h2
        · simp [step, executeLoopPauseElapsed, hc] at h2
          exact absurd h2 h1
  refine ⟨key.1, key.2, ?_, fun fb urls lc lp => hgen (step s e).1 fb urls lc lp⟩
  intro e2 he2
  exact done_step_no_op (step s e).1 e2 h2 key.1 he2

/-- Witness for claim C6: the fallback playback of a concrete session
finishes, entering `DONE`. -/
theorem done_resets_witness :
    (step onFallbackState (.onPlaybackFinished 0)).1.currentSourceId = none ∧
    (step onFallbackState (.onPlaybackFinished 0)).1.isStopping = false ∧
    (∀ e2 : Event, e2.isStart = false →
      step (step onFallbackState (.onPlaybackFinished 0)).1 e2
        = ((step onFallbackState (.onPlaybackFinished 0)).1, [])) ∧
    ∀ (fb : String) (urls : List String) (lc lp : Nat),
      (step (step onFallbackState (.onPlaybackFinished 0)).1
        (.start fb urls lc lp)).1.nextUrlIndexToRender = 0 ∧
      (step (step onFallbackState (.onPlaybackFinished 0)).1
        (.start fb urls lc lp)).1.completedLoops = 0 ∧
      (step (step onFallbackState (.onPlaybackFinished 0)).1
        (.start fb urls lc lp)).1.isStopping = false ∧
      (step (step onFallbackState (.onPlaybackFinished 0)).1
        (.start fb urls lc lp)).1.notifiedStarted = false :=
  done_resets onFallbackState (.onPlaybackFinished 0) (by decide) rfl

/-- Every single worker step preserves the index invariant. -/
theorem indexInvariant_step (s : Renderer) (e : Event)
    (h : indexInvariant s) : indexInvariant (step s e).1 := by
  obtain ⟨hle, hpaused, hplay⟩ := h
  have hinv : indexInvariant s := ⟨hle, hpaused, hplay⟩
  cases e with
  | start fb urls lc lp =>
      cases urls <;> simp [step, executeStart, indexInvariant]
  | stop =>
      by_cases hcond : s.state = .playingSequence ∨ s.state = .playingFallback
      · simp [step, executeStop, hcond, indexInvariant, hle]
      · simpa [step, executeStop, hcond, indexInvariant]
          using hinv
  | onPlaybackStarted i =>
      by_cases hid : s.currentSourceId = some i
      · by_cases hn : s.notifiedStarted
        · simpa [step, executeOnPlaybackStarted, hid, hn, indexInvariant]
            using hinv
        · simpa [step, executeOnPlaybackStarted, hid, hn, indexInvariant]
            using hinv
      · simpa [step, executeOnPlaybackStarted, hid, indexInvariant]
          using hinv
  | onPlaybackStopped i =>
      by_cases hid : s.currentSourceId = some i
      · by_cases hst : s.state = .stopping
        · simp [step, executeOnPlaybackStopped, hid, hst, enterDone,
            resetSourceId, indexInvariant, hle]
        · simpa [step, executeOnPlaybackStopped, hid, hst, indexInvariant]
            using hinv
      · simpa [step, executeOnPlaybackStopped, hid, indexInvariant]
          using hinv
  | onPlaybackFinished i =>
      by_cases hid : s.currentSourceId = some i
      · cases hstate : s.state with
        | playingSequence =>
            have hk := hplay hstate
            by_cases hlt : s.nextUrlIndexToRender + 1 < s.urls.length
            · simp [step, executeOnPlaybackFinished, hid, hstate, hlt,
                indexInvariant]
              omega
            · by_cases hlc : s.completedLoops < s.loopCount
              · simp [step, executeOnPlaybackFinished, hid, hstate, hlt,
                  hlc, indexInvariant]
                omega
              · simp [step, executeOnPlaybackFinished, hid, hstate, hlt,
                  hlc, enterDone, resetSourceId, indexInvariant]
                omega
        | stopping =>
            simp [step, executeOnPlaybackFinished, hid, hstate, enterDone,
              resetSourceId, indexInvariant, hle]
        | playingFallback =>
            simp [step, executeOnPlaybackFinished, hid, hstate, enterDone,
              resetSourceId, indexInvariant, hle]
        | idle =>
            simpa [step, executeOnPlaybackFinished, hid, hstate,
              indexInvariant] using hinv
        | pausedBetweenLoops =>
            simpa [step, executeOnPlaybackFinished, hid, hstate,
              indexInvariant] using hinv
        | done =>
            simpa [step, executeOnPlaybackFinished, hid, hstate,
              indexInvariant] using hinv
      · simpa [step, executeOnPlaybackFinished, hid, indexInvariant]
          using hinv
  | onPlaybackError i =>
      by_cases hid : s.currentSourceId = some i
      · by_cases hf : s.onFallback
        · simp [step, executeOnPlaybackError, hid, hf, enterDone,
            resetSourceId, indexInvariant, hle]
        · simp [step, executeOnPlaybackError, hid, hf, indexInvariant, hle]
      · simpa [step, executeOnPlaybackError, hid, indexInvariant]
          using hinv
  | loopPauseElapsed =>
      by_cases hc : s.state = .pausedBetweenLoops
      · cases hu : s.urls with
        | nil =>
            simpa [step, executeLoopPauseElapsed, hc, hu, indexInvariant]
              using hinv
        | cons u rest =>
            simp [step, executeLoopPauseElapsed, hc, hu, indexInvariant]
      · simpa [step, executeLoopPauseElapsed, hc, indexInvariant]
          using hinv

/-- Claim C7: in every state reachable from the fresh renderer, the next-url
index lies within `[0, len(urls)]`; it equals the length exactly while the
machine is paused between loops (the pass is complete) and is strictly below
it whenever a sequence source is playing. -/
theorem index_bound (evs : List Event) :
    (run initialRenderer evs).1.nextUrlIndexToRender
        ≤ (run initialRenderer evs).1.urls.length ∧
    ((run initialRenderer evs).1.state = .pausedBetweenLoops →
      (run initialRenderer evs).1.nextUrlIndexToRender
        = (run initialRenderer evs).1.urls.length) ∧
    ((run initialRenderer evs).1.state = .playingSequence →
      (run initialRenderer evs).1.nextUrlIndexToRender
        < (run initialRenderer evs).1.urls.length) := by
  have hrun : ∀ (l : List Event) (s : Renderer),
      indexInvariant s → indexInvariant (run s l).1 := by
    intro l
    induction l with
    | nil => intro s h; exact h
    | cons e es ih =>
        intro s h
        rw [run_cons]
        exact ih _ (indexInvariant_step s e h)
  exact hrun evs initialRenderer ⟨by decide, by decide, by decide⟩

/-- A session with no next task (in particular a `DONE` one) is left alone by
`drive`. -/
theorem drive_none (s : Renderer) (fuel : Nat) (h : happyEvent s = none) :
    drive s fuel = (s, []) := by
  cases fuel with
  | zero => rfl
  | succ n => simp [drive, h]

/-- Driving an error-free session to completion: every outstanding request
finishes, the machine requests exactly the remaining sources in order,
delivers one final "finished" notification and ends `DONE` with no
outstanding identifier. -/
theorem drive_happy (fuel : Nat) : ∀ (s : Renderer), happyHyp s →
    measureR s < fuel →
    (drive s fuel).2 = (remainingSources s).map
        (fun u => Output.play (.remoteUrl u)) ++ [Output.notify .finished] ∧
    (drive s fuel).1.state = .done ∧
    (drive s fuel).1.currentSourceId = none := by
  induction fuel with
  | zero => intro s _ hm; exact absurd hm (Nat.not_lt_zero _)
  | succ m ih =>
      intro s h hm
      obtain ⟨hc, hu, hcase⟩ := h
      rcases hcase with ⟨hst, hlt, hsome⟩ | hst
      · -- a sequence source is outstanding
        obtain ⟨i, hid⟩ := Option.isSome_iff_exists.mp hsome
        have hev : happyEvent s = some (.onPlaybackFinished i) := by
          simp [happyEvent, hst, hid]
        have hdr : drive s (m + 1)
            = ((drive (step s (.onPlaybackFinished i)).1 m).1,
               (step s (.onPlaybackFinished i)).2 ++
                 (drive (step s (.onPlaybackFinished i)).1 m).2) := by
          simp [drive, hev]
        by_cases hlt2 : s.nextUrlIndexToRender + 1 < s.urls.length
        · -- more urls remain in this pass
          have hout : (step s (.onPlaybackFinished i)).2
              = [Output.play (.remoteUrl
                  (s.urls.get ⟨s.nextUrlIndexToRender + 1, hlt2⟩))] := by
            simp [step, executeOnPlaybackFinished, hid, hst, hlt2]
          have hp1 : (step s (.onPlaybackFinished i)).1.state
              = .playingSequence := by
            simp [step, executeOnPlaybackFinished, hid, hst, hlt2]
          have hp2 : (step s (.onPlaybackFinished i)).1.urls = s.urls := by
            simp [step, executeOnPlaybackFinished, hid, hst, hlt2]
          have hp3 : (step s (.onPlaybackFinished i)).1.nextUrlIndexToRender
              = s.nextUrlIndexToRender + 1 := by
            simp [step, executeOnPlaybackFinished, hid, hst, hlt2]
          have hp4 : (step s (.onPlaybackFinished i)).1.completedLoops
              = s.completedLoops := by
            simp [step, executeOnPlaybackFinished, hid, hst, hlt2]
          have hp5 : (step s (.onPlaybackFinished i)).1.loopCount
              = s.loopCount := by
            simp [step, executeOnPlaybackFinished, hid, hst, hlt2]
          have hp6 : (step s (.onPlaybackFinished i)).1.currentSourceId.isSome
              = true := by
            simp [step, executeOnPlaybackFinished, hid, hst, hlt2]
          have hhyp : happyHyp (step s (.onPlaybackFinished i)).1 :=
            ⟨by rw [hp4, hp5]; exact hc, by rw [hp2]; exact hu,
              Or.inl ⟨hp1, by rw [hp3, hp2]; exact hlt2, hp6⟩⟩
          have hm2 : measureR (step s (.onPlaybackFinished i)).1 < m := by
            simp only [measureR, hp1, hp2, hp3, hp4, hp5, hst] at hm ⊢
            simp only [reduceCtorEq, if_false]
            simp only [reduceCtorEq, if_false] at hm
            omega
          have hihm := ih (step s (.onPlaybackFinished i)).1 hhyp hm2
          refine ⟨?_, by rw [hdr]; exact hihm.2.1, by rw [hdr]; exact hihm.2.2⟩
          rw [hdr]
          show (step s (.onPlaybackFinished i)).2 ++
              (drive (step s (.onPlaybackFinished i)).1 m).2 = _
          rw [hout, hihm.1]
          have hrem : remainingSources s
              = s.urls.get ⟨s.nextUrlIndexToRender + 1, hlt2⟩ ::
                remainingSources (step s (.onPlaybackFinished i)).1 := by
            simp only [remainingSources, hp1, hp2, hp3, hp4, hp5, hst,
              reduceCtorEq, if_false]
            rw [List.drop_eq_getElem_cons hlt2]
            simp only [List.get_eq_getElem, List.cons_append]
          rw [hrem]
          simp
        · by_cases hlc : s.completedLoops < s.loopCount
          · -- pass complete, repeats remain: pause between loops
            have hout : (step s (.onPlaybackFinished i)).2 = [] := by
              simp [step, executeOnPlaybackFinished, hid, hst, hlt2, hlc]
            have hp1 : (step s (.onPlaybackFinished i)).1.state
                = .pausedBetweenLoops := by
              simp [step, executeOnPlaybackFinished, hid, hst, hlt2, hlc]
            have hp2 : (step s (.onPlaybackFinished i)).1.urls = s.urls := by
              simp [step, executeOnPlaybackFinished, hid, hst, hlt2, hlc]
            have hp3 : (step s (.onPlaybackFinished i)).1.nextUrlIndexToRender
                = s.nextUrlIndexToRender + 1 := by
              simp [step, executeOnPlaybackFinished, hid, hst, hlt2, hlc]
            have hp4 : (step s (.onPlaybackFinished i)).1.completedLoops
                = s.completedLoops + 1 := by
              simp [step, executeOnPlaybackFinished, hid, hst, hlt2, hlc]
            have hp5 : (step s (.onPlaybackFinished i)).1.loopCount
                = s.loopCount := by
              simp [step, executeOnPlaybackFinished, hid, hst, hlt2, hlc]
            have hhyp : happyHyp (step s (.onPlaybackFinished i)).1 :=
              ⟨by rw [hp4, hp5]; exact hlc, by rw [hp2]; exact hu,
                Or.inr hp1⟩
            have hmul : (s.loopCount - s.completedLoops) *
                  (s.urls.length + 2)
                = (s.loopCount - (s.completedLoops + 1)) *
                    (s.urls.length + 2) + (s.urls.length + 2) := by
              have h1 : s.loopCount - s.completedLoops
                  = (s.loopCount - (s.completedLoops + 1)) + 1 := by omega
              rw [h1, Nat.add_mul, Nat.one_mul]
            have hm2 : measureR (step s (.onPlaybackFinished i)).1 < m := by
              have e1 : measureR (step s (.onPlaybackFinished i)).1
                  = (s.loopCount - (s.completedLoops + 1)) *
                      (s.urls.length + 2) +
                    (s.urls.length - (s.nextUrlIndexToRender + 1)) +
                    (s.urls.length + 2) := by
                simp [measureR, hp1, hp2, hp3, hp4, hp5]
              have e2 : measureR s
                  = (s.loopCount - s.completedLoops) * (s.urls.length + 2) +
                    (s.urls.length - s.nextUrlIndexToRender) := by
                simp [measureR, hst]
              rw [e1]
              rw [e2, hmul] at hm
              omega
            have hihm := ih (step s (.onPlaybackFinished i)).1 hhyp hm2
            refine ⟨?_, by rw [hdr]; exact hihm.2.1,
              by rw [hdr]; exact hihm.2.2⟩
            rw [hdr]
            show (step s (.onPlaybackFinished i)).2 ++
                (drive (step s (.onPlaybackFinished i)).1 m).2 = _
            rw [hout, hihm.1]
            have hrem : remainingSources s
                = remainingSources (step s (.onPlaybackFinished i)).1 := by
              simp only [remainingSources, hp1, hp2, hp3, hp4, hp5, hst,
                reduceCtorEq, if_false, if_pos rfl]
              have hdropnil : s.urls.drop (s.nextUrlIndexToRender + 1)
                  = [] := by
                have : s.urls.length ≤ s.nextUrlIndexToRender + 1 := by omega
                exact List.drop_eq_nil_of_le this
              rw [hdropnil]
              have hcount : s.loopCount + 1 - (s.completedLoops + 1)
                  = s.loopCount - s.completedLoops := by omega
              rw [hcount]
              simp
            rw [hrem]
            simp
          · -- pass complete, no repeats remain: the session finishes
            have hout : (step s (.onPlaybackFinished i)).2
                = [Output.notify .finished] := by
              simp [step, executeOnPlaybackFinished, hid, hst, hlt2, hlc]
            have hp1 : (step s (.onPlaybackFinished i)).1.state = .done := by
              simp [step, executeOnPlaybackFinished, hid, hst, hlt2, hlc,
                enterDone, resetSourceId]
            have hp6 : (step s (.onPlaybackFinished i)).1.currentSourceId
                = none := by
              simp [step, executeOnPlaybackFinished, hid, hst, hlt2, hlc,
                enterDone, resetSourceId]
            have hnone : happyEvent (step s (.onPlaybackFinished i)).1
                = none := by
              simp [happyEvent, hp1, hp6]
            have hdrv := drive_none (step s (.onPlaybackFinished i)).1 m hnone
            refine ⟨?_, ?_, ?_⟩
            · rw [hdr]
              show (step s (.onPlaybackFinished i)).2 ++
                  (drive (step s (.onPlaybackFinished i)).1 m).2 = _
              rw [hout, hdrv]
              have hzero : s.loopCount - s.completedLoops = 0 := by omega
              have hdropnil : s.urls.drop (s.nextUrlIndexToRender + 1)
                  = [] := by
                have : s.urls.length ≤ s.nextUrlIndexToRender + 1 := by omega
                exact List.drop_eq_nil_of_le this
              simp [remainingSources, hst, hzero, hdropnil]
            · rw [hdr]
              show (drive (step s (.onPlaybackFinished i)).1 m).1.state = _
              rw [hdrv]
              exact hp1
            · rw [hdr]
              show (drive (step s (.onPlaybackFinished i)).1 m).1.currentSourceId = _
              rw [hdrv]
              exact hp6
      · -- paused between loops: the pause elapses
        have hev : happyEvent s = some .loopPauseElapsed := by
          simp [happyEvent, hst]
        have hdr : drive s (m + 1)
            = ((drive (step s .loopPauseElapsed).1 m).1,
               (step s .loopPauseElapsed).2 ++
                 (drive (step s .loopPauseElapsed).1 m).2) := by
          simp [drive, hev]
        obtain ⟨u, rest, hurl⟩ : ∃ u rest, s.urls = u :: rest := by
          cases hurl : s.urls with
          | nil => exact absurd hurl hu
          | cons u rest => exact ⟨u, rest, rfl⟩
        have hout : (step s .loopPauseElapsed).2
            = [Output.play (.remoteUrl u)] := by
          simp [step, executeLoopPauseElapsed, hst, hurl]
        have hp1 : (step s .loopPauseElapsed).1.state = .playingSequence := by
          simp [step, executeLoopPauseElapsed, hst, hurl]
        have hp2 : (step s .loopPauseElapsed).1.urls = s.urls := by
          simp [step, executeLoopPauseElapsed, hst, hurl]
        have hp3 : (step s .loopPauseElapsed).1.nextUrlIndexToRender = 0 := by
          simp [step, executeLoopPauseElapsed, hst, hurl]
        have hp4 : (step s .loopPauseElapsed).1.completedLoops
            = s.completedLoops := by
          simp [step, executeLoopPauseElapsed, hst, hurl]
        have hp5 : (step s .loopPauseElapsed).1.loopCount = s.loopCount := by
          simp [step, executeLoopPauseElapsed, hst, hurl]
        have hp6 : (step s .loopPauseElapsed).1.currentSourceId.isSome
            = true := by
          simp [step, executeLoopPauseElapsed, hst, hurl]
        have hlen : 0 < s.urls.length := by
          rw [hurl]; exact Nat.succ_pos _
        have hhyp : happyHyp (step s .loopPauseElapsed).1 :=
          ⟨by rw [hp4, hp5]; exact hc, by rw [hp2]; exact hu,
            Or.inl ⟨hp1, by rw [hp3, hp2]; exact hlen, hp6⟩⟩
        have hm2 : measureR (step s .loopPauseElapsed).1 < m := by
          have e1 : measureR (step s .loopPauseElapsed).1
              = (s.loopCount - s.completedLoops) * (s.urls.length + 2) +
                s.urls.length := by
            simp [measureR, hp1, hp2, hp3, hp4, hp5]
          have e2 : measureR s
              = (s.loopCount - s.completedLoops) * (s.urls.length + 2) +
                (s.urls.length - s.nextUrlIndexToRender) +
                (s.urls.length + 2) := by
            simp [measureR, hst]
          rw [e1]
          rw [e2] at hm
          omega
        have hihm := ih (step s .loopPauseElapsed).1 hhyp hm2
        refine ⟨?_, by rw [hdr]; exact hihm.2.1, by rw [hdr]; exact hihm.2.2⟩
        rw [hdr]
        show (step s .loopPauseElapsed).2 ++
            (drive (step s .loopPauseElapsed).1 m).2 = _
        rw [hout, hihm.1]
        have hrem : remainingSources s
            = u :: remainingSources (step s .loopPauseElapsed).1 := by
          simp only [remainingSources, hp1, hp2, hp3, hp4, hp5, hst,
            reduceCtorEq, if_false, if_pos rfl]
          have hcount : s.loopCount + 1 - s.completedLoops
              = (s.loopCount - s.completedLoops) + 1 := by omega
          rw [hcount, List.replicate_succ, List.flatten_cons, hurl]
          simp
        rw [hrem]
        simp

/-- Claim C3: starting a fresh renderer with a non-empty url sequence and a
loop count of `n`, if every play request finishes successfully (with each
pause between loops elapsing), then the renderer requests exactly the whole
sequence `n + 1` times over, in order, then delivers one terminal "finished"
notification, ends `DONE`, and issues no further play request or output for
that session. -/
theorem loop_completion (fb : String) (urls : List String) (n p : Nat)
    (h : urls ≠ []) :
    (step initialRenderer (.start fb urls n p)).2 ++
      (drive (startedState fb urls n p)
        (measureR (startedState fb urls n p) + 1)).2
      = (List.replicate (n + 1) urls).flatten.map
          (fun u => Output.play (.remoteUrl u)) ++ [Output.notify .finished] ∧
    (drive (startedState fb urls n p)
        (measureR (startedState fb urls n p) + 1)).1.state = .done ∧
    ∀ evs : List Event, evs.all (fun e => !e.isStart) = true →
      run (drive (startedState fb urls n p)
          (measureR (startedState fb urls n p) + 1)).1 evs
        = ((drive (startedState fb urls n p)
            (measureR (startedState fb urls n p) + 1)).1, []) := by
  obtain ⟨u, rest, hurl⟩ : ∃ u rest, urls = u :: rest := by
    cases urls with
    | nil => exact absurd rfl h
    | cons u rest => exact ⟨u, rest, rfl⟩
  subst hurl
  have hout : (step initialRenderer (.start fb (u :: rest) n p)).2
      = [Output.play (.remoteUrl u)] := by
    simp [step, executeStart]
  have hp1 : (startedState fb (u :: rest) n p).state = .playingSequence := by
    simp [startedState, step, executeStart]
  have hp2 : (startedState fb (u :: rest) n p).urls = u :: rest := by
    simp [startedState, step, executeStart]
  have hp3 : (startedState fb (u :: rest) n p).nextUrlIndexToRender = 0 := by
    simp [startedState, step, executeStart]
  have hp4 : (startedState fb (u :: rest) n p).completedLoops = 0 := by
    simp [startedState, step, executeStart]
  have hp5 : (startedState fb (u :: rest) n p).loopCount = n := by
    simp [startedState, step, executeStart]
  have hp6 : (startedState fb (u :: rest) n p).currentSourceId.isSome
      = true := by
    simp [startedState, step, executeStart]
  have hhyp : happyHyp (startedState fb (u :: rest) n p) :=
    ⟨by rw [hp4, hp5]; exact Nat.zero_le n, by rw [hp2]; simp,
      Or.inl ⟨hp1, by rw [hp3, hp2]; simp, hp6⟩⟩
  have hd := drive_happy (measureR (startedState fb (u :: rest) n p) + 1)
    (startedState fb (u :: rest) n p) hhyp (Nat.lt_succ_self _)
  refine ⟨?_, hd.2.1, ?_⟩
  · rw [hout, hd.1]
    have hrem : remainingSources (startedState fb (u :: rest) n p)
        = rest ++ (List.replicate n (u :: rest)).flatten := by
      simp [remainingSources, hp1, hp2, hp3, hp4, hp5]
    rw [hrem, List.replicate_succ, List.flatten_cons]
    simp
  · intro evs hevs
    exact done_run_no_op evs _ hd.2.1 hd.2.2 hevs

/-- Witness for claim C3: one url, two repeats — three passes in total. -/
theorem loop_completion_witness :
    (step initialRenderer (.start ("fb") ["u1"] 2 5)).2 ++
      (drive (startedState ("fb") ["u1"] 2 5)
        (measureR (startedState ("fb") ["u1"] 2 5) + 1)).2
      = (List.replicate (2 + 1) ["u1"]).flatten.map
          (fun u => Output.play (.remoteUrl u)) ++ [Output.notify .finished] ∧
    (drive (startedState ("fb") ["u1"] 2 5)
        (measureR (startedState ("fb") ["u1"] 2 5) + 1)).1.state = .done ∧
    ∀ evs : List Event, evs.all (fun e => !e.isStart) = true →
      run (drive (startedState ("fb") ["u1"] 2 5)
          (measureR (startedState ("fb") ["u1"] 2 5) + 1)).1 evs
        = ((drive (startedState ("fb") ["u1"] 2 5)
            (measureR (startedState ("fb") ["u1"] 2 5) + 1)).1, []) :=
  loop_completion ("fb") ["u1"] 2 5 (by decide)

end AlertsRenderer

namespace AvsUtils

/-- Claim C10: the boolean conversion of `HTTPContent` is determined by the
resolved status code alone — two contents with equal status codes convert
equally, whatever their content-type or data stream — and it is `true`
exactly when the status code is 200 (so 201, 206 and every other code yield
`false`). -/
theorem httpContent_bool (c c2 : HTTPContent)
    (h : c.statusCode = c2.statusCode) :
    c.toBool = c2.toBool ∧ (c.toBool = true ↔ c.statusCode = 200) := by
  constructor
  · simp [HTTPContent.toBool, h]
  · simp [HTTPContent.toBool]

/-- Witness for claim C10: status 201 with different content-types and data
streams — both convert to `false`. -/
theorem httpContent_bool_witness :
    (HTTPContent.mk 201 ("text/plain") none).toBool
        = (HTTPContent.mk 201 ("audio/mpeg") (some [1, 2])).toBool ∧
    ((HTTPContent.mk 201 ("text/plain") none).toBool = true ↔
      (HTTPContent.mk 201 ("text/plain") none).statusCode = 200) :=
  httpContent_bool (HTTPContent.mk 201 ("text/plain") none)
    (HTTPContent.mk 201 ("audio/mpeg") (some [1, 2])) rfl

end AvsUtils
